import Mathlib

/-!
Verification development for the WebScraping repository (src/app.py).

The Python program is shallowly embedded: its pure text-processing
functions (field extraction regexes, duration parsing, normalization,
schema projection, adapter dispatch) are translated into executable Lean
definitions over `List Char` / `String`, and the stateful scrape loop of
the heading-scan adapter is translated into explicit state passing over a
flat document model.  Python regular expressions are embedded through a
small backtracking matcher (`Rx`) whose alternative / greedy / lazy
priorities mirror the semantics of Python's `re` module on the pattern
constructs that actually occur in the source.
-/

set_option maxRecDepth 100000
set_option maxHeartbeats 2000000

namespace WebScrape

/-- Python whitespace: the ASCII characters matched by the default
`str.strip()` and by the regex class for whitespace in `app.py`'s texts. -/
def isPySpace (c : Char) : Bool :=
  c == ' ' || c == '\t' || c == '\n' || c == '\r' || c == '\x0b' || c == '\x0c'

/-- Regex word character (ASCII), used for word-boundary tests. -/
def isWordChar (c : Char) : Bool :=
  c.isAlphanum || c == '_'

/-- ASCII case table used to model Python's `str.lower` / `str.upper`
on the texts this program handles. -/
def caseTable : List (Char × Char) :=
  [('A', 'a'), ('B', 'b'), ('C', 'c'), ('D', 'd'), ('E', 'e'), ('F', 'f'),
   ('G', 'g'), ('H', 'h'), ('I', 'i'), ('J', 'j'), ('K', 'k'), ('L', 'l'),
   ('M', 'm'), ('N', 'n'), ('O', 'o'), ('P', 'p'), ('Q', 'q'), ('R', 'r'),
   ('S', 's'), ('T', 't'), ('U', 'u'), ('V', 'v'), ('W', 'w'), ('X', 'x'),
   ('Y', 'y'), ('Z', 'z')]

/-- Model of Python's `str.lower` on a single character. -/
def pyToLower (c : Char) : Char :=
  ((caseTable.find? (fun p => p.1 == c)).map Prod.snd).getD c

/-- Model of Python's `str.upper` on a single character. -/
def pyToUpper (c : Char) : Char :=
  ((caseTable.find? (fun p => p.2 == c)).map Prod.fst).getD c

/-- Model of Python's `str.lower`. -/
def pyLower (l : List Char) : List Char := l.map pyToLower

/-- Model of Python's `str.strip()` (strip leading and trailing
whitespace). -/
def pyStrip (l : List Char) : List Char :=
  ((l.dropWhile isPySpace).reverse.dropWhile isPySpace).reverse

/-- Model of Python's `str.capitalize()`: first character uppercased,
the rest lowercased. -/
def pyCapitalize : List Char → List Char
  | [] => []
  | c :: cs => pyToUpper c :: cs.map pyToLower

/-- Helper for `normalizeWs`; the Bool records whether the previous
character was collapsed whitespace. -/
def normalizeWsAux : Bool → List Char → List Char
  | _, [] => []
  | prevWs, c :: cs =>
    if isPySpace c then
      if prevWs then normalizeWsAux true cs
      else ' ' :: normalizeWsAux true cs
    else c :: normalizeWsAux false cs

/-- Model of `re.sub` applied with a whitespace-run pattern and a single
space replacement, as in `extract_age_day_time_from_text`. -/
def normalizeWs (l : List Char) : List Char := normalizeWsAux false l

/-- Does `hay` start with `needle` (character-exact)? -/
def leadsWith : List Char → List Char → Bool
  | [], _ => true
  | _ :: _, [] => false
  | n :: ns, h :: hs => n == h && leadsWith ns hs

/-- Model of Python's substring test `needle in hay` (case-exact). -/
def containsSub (hay needle : List Char) : Bool :=
  match hay with
  | [] => needle.isEmpty
  | _ :: hs => leadsWith needle hay || containsSub hs needle

/-- Join a list of strings with a separator, as Python's `sep.join`. -/
def joinWith (sep : List Char) : List (List Char) → List Char
  | [] => []
  | [x] => x
  | x :: xs => x ++ sep ++ joinWith sep xs

/-- Helper for `dedupeKeepFirst`, carrying the set of entries seen. -/
def dedupeAux : List (List Char) → List (List Char) → List (List Char)
  | [], _ => []
  | x :: xs, seen =>
    if seen.contains x then dedupeAux xs seen
    else x :: dedupeAux xs (x :: seen)

/-- Model of Python's `dict.fromkeys` order-preserving deduplication
(first occurrence wins). -/
def dedupeKeepFirst (l : List (List Char)) : List (List Char) := dedupeAux l []

/-- Model of Python's `str.split(sep)` for a single-character separator
(keeps empty pieces). -/
def splitOnChar (sep : Char) : List Char → List (List Char)
  | [] => [[]]
  | c :: cs =>
    if c == sep then [] :: splitOnChar sep cs
    else
      match splitOnChar sep cs with
      | [] => [[c]]
      | p :: ps => (c :: p) :: ps

/-- Build a `String` from characters. -/
def strOf (l : List Char) : String := String.mk l

/-! ## A small backtracking regex matcher

Only the constructs occurring in `app.py`'s patterns are embedded:
single-character classes, literals, concatenation, prioritized
alternation, greedy and lazy stars over a character class, the word
boundary assertion and the end-of-string anchor.  `matchList` returns all
match candidates in Python's backtracking priority order, so taking the
head reproduces `re.match` at a position, and `rxSearch` below reproduces
`re.search` (leftmost position, then priority order). -/

/-- Character classes appearing in the source regexes. -/
inductive Cls where
  | digit
  | notDigit
  | ws
  | dot
  | ciChar (c : Char)
  | oneOf (cs : List Char)
  | wsOr (cs : List Char)

/-- Whether a character belongs to a class. -/
def Cls.mem : Cls → Char → Bool
  | .digit, c => c.isDigit
  | .notDigit, c => !c.isDigit
  | .ws, c => isPySpace c
  | .dot, _ => true
  | .ciChar x, c => pyToLower c == x
  | .oneOf l, c => l.contains c
  | .wsOr l, c => isPySpace c || l.contains c

/-- Regex abstract syntax. -/
inductive Rx where
  | eps
  | cls (k : Cls)
  | seq (a b : Rx)
  | alt (a b : Rx)
  | star (k : Cls)
  | lazyStar (k : Cls)
  | wb
  | eos

/-- Word-boundary test between an optional previous character and an
optional next character. -/
def boundaryAt (prev next : Option Char) : Bool :=
  let pw := match prev with | some c => isWordChar c | none => false
  let nw := match next with | some c => isWordChar c | none => false
  pw != nw

/-- Last character of a partial match, falling back to the context
character before the match. -/
def lastOr (prev : Option Char) (m : List Char) : Option Char :=
  match m.getLast? with
  | some c => some c
  | none => prev

/-- All match results `(matched, rest)` of a regex at the start of `cs`,
in backtracking priority order.  `prev` is the character immediately
before `cs` in the full subject (for word boundaries). -/
def Rx.matchList : Rx → Option Char → List Char → List (List Char × List Char)
  | .eps, _, cs => [([], cs)]
  | .cls _, _, [] => []
  | .cls k, _, c :: cs => if k.mem c then [([c], cs)] else []
  | .star k, _, cs =>
      let t := cs.takeWhile k.mem
      (List.range (t.length + 1)).reverse.map (fun i => (cs.take i, cs.drop i))
  | .lazyStar k, _, cs =>
      let t := cs.takeWhile k.mem
      (List.range (t.length + 1)).map (fun i => (cs.take i, cs.drop i))
  | .seq a b, prev, cs =>
      (a.matchList prev cs).flatMap (fun pr =>
        (b.matchList (lastOr prev pr.1) pr.2).map (fun qr => (pr.1 ++ qr.1, qr.2)))
  | .alt a b, prev, cs => a.matchList prev cs ++ b.matchList prev cs
  | .wb, prev, cs => if boundaryAt prev cs.head? then [([], cs)] else []
  | .eos, _, cs => if cs.isEmpty then [([], [])] else []

/-- Scan forward for the first position with a match (the body of
`re.search`). -/
def searchFrom (r : Rx) : Option Char → List Char → Option (List Char × List Char)
  | prev, cs =>
    match r.matchList prev cs with
    | m :: _ => some m
    | [] =>
      match cs with
      | [] => none
      | c :: rest => searchFrom r (some c) rest

/-- Model of `re.search(pattern, s)` returning `group(0)` of the match. -/
def rxSearch (r : Rx) (cs : List Char) : Option (List Char) :=
  (searchFrom r none cs).map Prod.fst

/-- Fuel-driven worker for `finditer`. -/
def finditerAux (r : Rx) : Nat → Option Char → List Char → List (List Char)
  | 0, _, _ => []
  | fuel + 1, prev, [] =>
    match r.matchList prev [] with
    | p :: _ =>
      if p.1.isEmpty then []
      else p.1 :: finditerAux r fuel (lastOr prev p.1) p.2
    | [] => []
  | fuel + 1, prev, c :: cs2 =>
    match r.matchList prev (c :: cs2) with
    | p :: _ =>
      if p.1.isEmpty then finditerAux r fuel (some c) cs2
      else p.1 :: finditerAux r fuel (lastOr prev p.1) p.2
    | [] => finditerAux r fuel (some c) cs2

/-- Model of `re.finditer` (list of non-overlapping `group(0)` values,
left to right). -/
def finditer (r : Rx) (cs : List Char) : List (List Char) :=
  finditerAux r (cs.length + 1) none cs

/-- Case-insensitive literal (the source patterns are compiled with
`re.I` unless noted otherwise). -/
def litCI (s : List Char) : Rx :=
  s.foldr (fun c r => .seq (.cls (.ciChar (pyToLower c))) r) .eps

/-- Case-sensitive literal. -/
def litCS (s : List Char) : Rx :=
  s.foldr (fun c r => .seq (.cls (.oneOf [c])) r) .eps

/-- Prioritized alternation over a list (first entry preferred). -/
def altList : List Rx → Rx
  | [] => .cls (.oneOf [])
  | [r] => r
  | r :: rs => .alt r (altList rs)

/-- Greedy optional. -/
def rxOpt (r : Rx) : Rx := .alt r .eps

/-- Sequence of a list of regexes. -/
def rxSeq : List Rx → Rx
  | [] => .eps
  | [r] => r
  | r :: rs => .seq r (rxSeq rs)

/-- One or two digits, greedy, as in the source's bounded digit
repetitions. -/
def digit12 : Rx := .seq (.cls .digit) (rxOpt (.cls .digit))

/-- One to three digits, greedy. -/
def digit13 : Rx :=
  .seq (.cls .digit) (rxOpt (.seq (.cls .digit) (rxOpt (.cls .digit))))

/-- One or more digits, greedy. -/
def digitsPlus : Rx := .seq (.cls .digit) (.star .digit)

/-- Syntactic check that every character a class accepts is non-whitespace
(used to derive properties of match results). -/
def Cls.noWsChk : Cls → Bool
  | .digit => true
  | .notDigit => false
  | .ws => false
  | .dot => false
  | .ciChar c => !isPySpace c
  | .oneOf l => l.all (fun c => !isPySpace c)
  | .wsOr _ => false

/-- Syntactic check that every character of every match is
non-whitespace. -/
def Rx.noWsChk : Rx → Bool
  | .eps => true
  | .cls k => k.noWsChk
  | .seq a b => a.noWsChk && b.noWsChk
  | .alt a b => a.noWsChk && b.noWsChk
  | .star k => k.noWsChk
  | .lazyStar k => k.noWsChk
  | .wb => true
  | .eos => true

/-- Syntactic check that every match contains at least one
non-whitespace character. -/
def Rx.strongChk : Rx → Bool
  | .eps => false
  | .cls k => k.noWsChk
  | .seq a b => a.strongChk || b.strongChk
  | .alt a b => a.strongChk && b.strongChk
  | .star _ => false
  | .lazyStar _ => false
  | .wb => false
  | .eos => false

/-- Greedy whitespace star. -/
def wsStar : Rx := .star .ws

/-- One or more whitespace characters, greedy. -/
def wsPlus : Rx := .seq (.cls .ws) (.star .ws)

/-- Case-insensitive literal from a string (the source compiles almost
every pattern with the ignore-case flag). -/
def li (s : String) : Rx := litCI s.data

/-- Case-sensitive literal from a string. -/
def ls (s : String) : Rx := litCS s.data

/-- One or more repetitions of a character class, greedy. -/
def clsPlus (k : Cls) : Rx := .seq (.cls k) (.star k)

/-- Does the pattern occur anywhere in the text (`re.search` as a
boolean)? -/
def rxHas (r : Rx) (cs : List Char) : Bool := (rxSearch r cs).isSome

/-! ## Transcription of the regexes of app.py -/

/-- DAY_REGEX: the WEEKDAY_WORDS alternation, ignore-case, transcribed
in source order. -/
def dayRx : Rx :=
  altList [li "monday", li "tuesday", li "wednesday", li "thursday",
    li "friday", li "saturday", li "sunday", li "mon", li "tue", li "wed",
    li "thu", li "thur", li "fri", li "sat", li "sun", li "weekend",
    li "weekends"]

/-- First AGE_PATTERNS entry: grade and pre-K notations with optional
dashed numeric continuations, bounded by word boundaries. -/
def ageRx1 : Rx :=
  rxSeq [.wb,
    altList [li "Grade", li "Grades", li "PreK", li "Pre-K"],
    wsStar, digitsPlus,
    rxOpt (rxSeq [wsStar, .cls (.oneOf ['-', '–', '—']), wsStar, digitsPlus]),
    wsStar,
    rxOpt (rxSeq [.cls (.oneOf ['-']), wsStar, digitsPlus]),
    .wb]

/-- Second AGE_PATTERNS entry: an age keyword, one or two digits, an
optional range continuation whose separator is the character class of
dash, en-dash and the letters of "to" (ignore-case adds the uppercase
letters), and optional unit words. -/
def ageRx2 : Rx :=
  rxSeq [.wb,
    altList [rxSeq [li "age", rxOpt (li "s")],
             rxSeq [li "age", .star (.wsOr [':', '-'])]],
    wsStar, digit12, wsStar,
    rxOpt (rxSeq [clsPlus (.oneOf ['-', '–', 't', 'o', 'T', 'O']),
                  wsStar, digit12]),
    wsStar,
    rxOpt (altList [rxSeq [li "yr", rxOpt (li "s")], li "years", li "yo",
                    rxSeq [li "mo", rxOpt (li "s")], li "months"]),
    .wb]

/-- Third AGE_PATTERNS entry: one or two digits followed by a mandatory
age unit word. -/
def ageRx3 : Rx :=
  rxSeq [.wb, digit12, wsStar,
    altList [li "years", li "yrs", li "yr", li "yo", li "months", li "mos"],
    .wb]

/-- Fourth AGE_PATTERNS entry.  In the source this is two adjacent
string literals that Python concatenates into a single pattern: an age
category keyword with a word boundary, immediately followed by a second
word-boundary assertion and a K-grade tail.  The doubled boundary before
a word character makes the alternative unsatisfiable, which the
transcription preserves. -/
def ageRx4 : Rx :=
  rxSeq [.wb,
    altList [li "infant", li "toddler", li "preschool", li "pre-school",
             li "baby", rxSeq [li "kid", rxOpt (li "s")], li "children",
             li "teen", li "adult"],
    .wb, .wb, .cls (.oneOf ['K', 'k']), wsStar,
    rxOpt (.cls (.oneOf ['-', '–'])), wsStar, .star .digit,
    rxOpt (altList [li "st", li "nd", li "rd", li "th"]),
    .wb]

/-- Fifth AGE_PATTERNS entry: a grade keyword with digits. -/
def ageRx5 : Rx :=
  rxSeq [.wb, li "Grade", wsStar, digitsPlus, .wb]

/-- AGE_REGEX: the pipe-join of the five AGE_PATTERNS entries. -/
def ageRx : Rx := altList [ageRx1, ageRx2, ageRx3, ageRx4, ageRx5]

/-- The meridiem alternation of the time patterns. -/
def ampmAlt : Rx := altList [li "am", li "pm", li "AM", li "PM"]

/-- Optional meridiem preceded by optional whitespace. -/
def wsAmpmOpt : Rx := .seq wsStar (rxOpt ampmAlt)

/-- Exactly two digits. -/
def digit2 : Rx := .seq (.cls .digit) (.cls .digit)

/-- Colon-or-dot separator of the time patterns. -/
def colonDot : Rx := .cls (.oneOf [':', '.'])

/-- The en-dash-or-hyphen separator class of the time patterns. -/
def dash2 : Rx := .cls (.oneOf ['–', '-'])

/-- First TIME_PATTERNS entry: a clock time with minutes, optional
meridiem, optionally continued as a range. -/
def timeRx1 : Rx :=
  rxSeq [digit12, colonDot, digit2, wsAmpmOpt,
    rxOpt (rxSeq [wsStar, dash2, wsStar, digit12, colonDot, digit2, wsAmpmOpt])]

/-- Second TIME_PATTERNS entry: a bare hour with a mandatory meridiem. -/
def timeRx2 : Rx :=
  rxSeq [digit12, wsStar, ampmAlt, .wb]

/-- Third TIME_PATTERNS entry: a clock time with minutes at a word
boundary. -/
def timeRx3 : Rx :=
  rxSeq [digit12, colonDot, digit2, .wb]

/-- TIME_REGEX: the pipe-join of the three TIME_PATTERNS entries. -/
def timeRx : Rx := altList [timeRx1, timeRx2, timeRx3]

/-- The numeric token of the adapter-local time pattern of
scrape_alphaminds: a clock time with minutes, or a bare number. -/
def amNum : Rx := altList [rxSeq [digit12, colonDot, digit2], digit12]

/-- The adapter-local time pattern (`time_re`) of scrape_alphaminds. -/
def timeReAM : Rx :=
  rxSeq [amNum, wsAmpmOpt,
    rxOpt (rxSeq [wsStar, dash2, wsStar, amNum, wsAmpmOpt])]

/-- CLASS_SIZE_REGEX without its capture group: a size keyword, optional
colon or whitespace, a lazy non-digit run, then one to three digits at a
word boundary.  The captured group is recovered by `classSizeSearch` as
the digit suffix of the match. -/
def classSizeRx : Rx :=
  rxSeq [.wb,
    altList [li "class size", li "capacity",
             rxSeq [li "max", rxOpt (li "imum"), rxOpt (rxSeq [li " seat", rxOpt (li "s")])],
             rxSeq [li "limit", rxOpt (li "ed")],
             rxSeq [li "spots", rxOpt (li " available")]],
    .star (.wsOr [':']), .lazyStar .notDigit, digit13, .wb]

/-- Model of `CLASS_SIZE_REGEX.search(txt)` followed by `group(1)`: the
captured digits are exactly the digit suffix of the full match. -/
def classSizeSearch (cs : List Char) : Option (List Char) :=
  (rxSearch classSizeRx cs).map (fun m => (m.reverse.takeWhile Char.isDigit).reverse)

/-- DURATION_REGEX: one to three digits and a duration unit; group(1) is
the whole match. -/
def durationRx : Rx :=
  rxSeq [digit13, wsStar,
    altList [rxSeq [li "min", rxOpt (li "ute"), rxOpt (li "s")],
             rxSeq [li "min", rxOpt (li "s")],
             rxSeq [li "minute", rxOpt (li "s")],
             li "hr", li "hrs", li "hour", li "hours"]]

/-- The keyword probe for the time branch of scrape_alphaminds. -/
def timeWhenRx : Rx := rxSeq [.wb, altList [li "time", li "when"], .wb]

/-- The keyword probe for the size branch of scrape_alphaminds. -/
def sizeKwRx : Rx :=
  rxSeq [.wb, altList [li "max", li "capacity", li "class size", li "limit", li "spots"], .wb]

/-- The keyword probe for the duration branch of scrape_alphaminds. -/
def durKwRx : Rx :=
  rxSeq [.wb, altList [li "duration", li "length", li "minutes", li "hours"], .wb]

/-- The keyword probe for the location branch of scrape_alphaminds. -/
def addrKwRx : Rx :=
  rxSeq [.wb, altList [li "address", li "location", li "studio", li "venue"], .wb]

/-- The gating pattern of parse_time_range_to_duration: a colon, or
whitespace followed by a meridiem, then an optionally space-padded dash
and one or two digits. -/
def gateRx : Rx :=
  rxSeq [altList [ls ":", rxSeq [.cls .ws, altList [li "am", li "pm"]]],
    wsStar, .cls (.oneOf ['–', '—', '-']), wsStar, digit12]

/-- The separator pattern that parse_time_range_to_duration splits on:
an optionally space-padded dash, or the word "to" surrounded by
whitespace (this pattern is compiled without ignore-case). -/
def sepRx : Rx :=
  altList [rxSeq [wsStar, .cls (.oneOf ['–', '—', '-']), wsStar],
           rxSeq [wsPlus, ls "to", wsPlus]]

/-- Worker for the `re.split` model. -/
def pySplitAux : Nat → List Char → List Char → List (List Char)
  | 0, cur, _ => [cur.reverse]
  | fuel + 1, cur, cs =>
    match sepRx.matchList none cs with
    | (m, rest) :: _ =>
      if m.isEmpty then
        match cs with
        | [] => [cur.reverse]
        | c :: cs2 => pySplitAux fuel (c :: cur) cs2
      else cur.reverse :: pySplitAux fuel [] rest
    | [] =>
      match cs with
      | [] => [cur.reverse]
      | c :: cs2 => pySplitAux fuel (c :: cur) cs2

/-- Model of the `re.split` call of parse_time_range_to_duration. -/
def splitTimeRange (s : String) : List String :=
  (pySplitAux (s.data.length + 1) [] s.data).map strOf

/-- Case-insensitive leading-substring test. -/
def leadsWithCI : List Char → List Char → Bool
  | [], _ => true
  | _ :: _, [] => false
  | n :: ns, h :: hs => pyToLower n == pyToLower h && leadsWithCI ns hs

/-- Lazily grow a span until the remainder satisfies `tailOk`
(the semantics of a lazy dot-star before a tail pattern with the
dot-matches-all flag); `none` when no split point works. -/
def lazyFind (tailOk : List Char → Bool) : List Char → Option (List Char)
  | [] => if tailOk [] then some [] else none
  | c :: rest =>
    if tailOk (c :: rest) then some []
    else (lazyFind tailOk rest).map (fun g => c :: g)

/-- Tail condition of the labeled-age pattern: greedy whitespace then
the days label or end of string. -/
def ageLineTailOk (cs : List Char) : Bool :=
  let r := cs.dropWhile isPySpace
  leadsWithCI "days:".data r || r.isEmpty

/-- Model of the labeled-age search of scrape_alphaminds (a pattern
group of the age label and a lazy span, up to the days label or the end
of the text, ignore-case and dot-matches-all); returns group(1). -/
def ageLineSearch : List Char → Option (List Char)
  | [] => none
  | c :: cs =>
    if leadsWithCI "age group:".data (c :: cs) then
      match lazyFind ageLineTailOk ((c :: cs).drop 10) with
      | some g => some ((c :: cs).take 10 ++ g)
      | none => ageLineSearch cs
    else ageLineSearch cs

/-- Tail condition of the labeled-days pattern: greedy whitespace then
one of the two stop words. -/
def daysLineTailOk (cs : List Char) : Bool :=
  let r := cs.dropWhile isPySpace
  leadsWithCI "our".data r || leadsWithCI "register".data r

/-- Model of the labeled-days search of scrape_alphaminds (the days
label, greedy whitespace, then a lazy span up to a stop word,
ignore-case and dot-matches-all); returns group(1). -/
def daysLineSearch : List Char → Option (List Char)
  | [] => none
  | c :: cs =>
    if leadsWithCI "days:".data (c :: cs) then
      match lazyFind daysLineTailOk (((c :: cs).drop 5).dropWhile isPySpace) with
      | some g => some g
      | none => daysLineSearch cs
    else daysLineSearch cs

/-! ## Field heuristics of app.py -/

/-- Model of ensure_field: `None` becomes the sentinel, otherwise strip,
and an empty result becomes the sentinel. -/
def ensure_field (val : Option String) : String :=
  match val with
  | none => "N/A"
  | some v =>
    let s := strOf (pyStrip v.data)
    if s = "" then "N/A" else s

/-- The day-collection loop of extract_age_day_time_from_text: strip
each weekday match, deduplicate case-insensitively, append the
capitalized form. -/
def collectDaysAux : List (List Char) → List (List Char) → List (List Char)
  | [], acc => acc.reverse
  | w :: ws, acc =>
    let t := pyStrip w
    let lw := pyLower t
    if (acc.map pyLower).contains lw then collectDaysAux ws acc
    else collectDaysAux ws (pyCapitalize t :: acc)

/-- Model of extract_age_day_time_from_text: whitespace-normalize, then
age by the first AGE_REGEX match, days by deduplicated capitalized
weekday matches, times by deduplicated TIME_REGEX matches. -/
def extract_age_day_time_from_text (text : Option String) : String × String × String :=
  match text with
  | none => ("N/A", "N/A", "N/A")
  | some t =>
    if t = "" then ("N/A", "N/A", "N/A")
    else
      let txt := normalizeWs t.data
      let age :=
        match rxSearch ageRx txt with
        | some m => strOf (pyStrip m)
        | none => "N/A"
      let daysFound := collectDaysAux (finditer dayRx txt) []
      let days := if daysFound.isEmpty then "N/A" else strOf (joinWith ", ".data daysFound)
      let timesFound := (finditer timeRx txt).map pyStrip
      let times :=
        if timesFound.isEmpty then "N/A"
        else strOf (joinWith ", ".data (dedupeKeepFirst timesFound))
      (age, days, times)

/-- Model of extract_size_length_address.  The text regexes are
embedded; the scoped DOM address search of the optional node argument
and the linked-data / global address search of the full document are
abstracted as the optional results `nodeAddress` and `soupAddress`
(`none` models an absent argument or a search with no hit), matching
the branch structure of the source. -/
def extract_size_length_address (text : String) (nodeAddress : Option String)
    (soupAddress : Option String) : String × String × String :=
  let txt := text.data
  let size :=
    match classSizeSearch txt with
    | some g => strOf g
    | none => "N/A"
  let length :=
    match rxSearch durationRx txt with
    | some m => strOf (pyStrip m)
    | none => "N/A"
  let address :=
    match nodeAddress with
    | some a => a
    | none => "N/A"
  let address :=
    if address = "" || address = "N/A" then
      match soupAddress with
      | some a => a
      | none => address
    else address
  (ensure_field (some size), ensure_field (some length), ensure_field (some address))

/-- Numeric value of a digit run. -/
def digitsVal (ds : List Char) : Nat :=
  ds.foldl (fun acc c => acc * 10 + (c.toNat - 48)) 0

/-- Read an optional meridiem; the Bool is true for pm. -/
def meridiemOf (r : List Char) : Option (Bool × List Char) :=
  if leadsWithCI "am".data r then some (false, r.drop 2)
  else if leadsWithCI "pm".data r then some (true, r.drop 2)
  else none

/-- Finish parsing a time token after the numeric fields: optional
whitespace, optional meridiem, nothing else; validate the ranges the
external parser accepts and convert to minutes since midnight. -/
def finishTime (h m : Nat) (hadColon : Bool) (rest : List Char) : Option Nat :=
  let r := rest.dropWhile isPySpace
  match meridiemOf r with
  | some (isPm, r2) =>
    if (r2.dropWhile isPySpace).isEmpty && h ≤ 12 && m ≤ 59 then
      some ((if isPm then (if h = 12 then 12 else h + 12)
             else (if h = 12 then 0 else h)) * 60 + m)
    else none
  | none =>
    if hadColon && r.isEmpty && h ≤ 23 && m ≤ 59 then some (h * 60 + m) else none

/-- Modelled from the source's use of the external dateutil parser on
split endpoints: accepts the time-of-day token shapes the endpoints of a
real time range take (one or two hour digits, an optional colon and one
or two minute digits, an optional meridiem, surrounding whitespace) and
returns minutes since midnight.  Token shapes the external parser reads
as calendar dates (bare numbers, dotted fields) or rejects are outside
the modelled domain and return `none`; in the enclosing function every
such outcome becomes the unknown sentinel. -/
def parseTimeToken (s : String) : Option Nat :=
  let cs := s.data.dropWhile isPySpace
  let ds := cs.takeWhile Char.isDigit
  if ds.isEmpty || 2 < ds.length then none
  else
    let h := digitsVal ds
    match cs.drop ds.length with
    | ':' :: r =>
      let ms := r.takeWhile Char.isDigit
      if ms.isEmpty || 2 < ms.length then none
      else finishTime h (digitsVal ms) true (r.drop ms.length)
    | rest => finishTime h 0 false rest

/-- Format the computed span as in the source: bare minutes under an
hour, else hours with the minute remainder, the remainder omitted when
zero. -/
def formatDuration (mins : Nat) : String :=
  if mins < 60 then toString mins ++ "m"
  else
    let h := mins / 60
    let m := mins % 60
    if m = 0 then toString h ++ "h" else toString h ++ "h" ++ toString m ++ "m"

/-- The arithmetic core of parse_time_range_to_duration: add one day to
the end time when it precedes the start, reject a span that is zero (in
the source, not positive) or above six hours, else format. -/
def durationFrom (t0 t1 : Nat) : String :=
  let t1w := if t1 < t0 then t1 + 1440 else t1
  let mins := t1w - t0
  if mins = 0 ∨ 360 < mins then "N/A" else formatDuration mins

/-- Model of parse_time_range_to_duration of app.py: sentinel passthrough,
the time-marker gate, the separator split, endpoint parsing, then the
wrap / guard / format arithmetic. -/
def parse_time_range_to_duration (timestr : String) : String :=
  if timestr = "" ∨ timestr = "N/A" then "N/A"
  else if !(rxHas gateRx timestr.data) then "N/A"
  else
    match splitTimeRange timestr with
    | p0 :: p1 :: _ =>
      match parseTimeToken p0, parseTimeToken p1 with
      | some t0, some t1 => durationFrom t0 t1
      | _, _ => "N/A"
    | _ => "N/A"

/-! ## The heading-scan adapter (scrape_alphaminds)

The page is modelled as a flat list of elements in document order.  The
DOM queries of the source that are not text processing are carried as
element attributes: `hasRegisterLink` models the search for a
register-labelled anchor or button inside the element, and
`nodeAddress` models the scoped address-tag / address-class search of
extract_size_length_address on that element (`none` when nothing is
found).  `soupAddress` likewise models the document-global linked-data
and address search. -/

/-- A flattened document element. -/
structure Elem where
  tag : String
  text : String
  idAttr : Option String := none
  hasRegisterLink : Bool := false
  nodeAddress : Option String := none

/-- The tags iterated by the heading loop. -/
def isHeadingTag (t : String) : Bool := t == "h2" || t == "h3" || t == "h4"

/-- The enhanced filtering list of scrape_alphaminds. -/
def skipKeywords : List String :=
  ["testimonial", "teacher", "contact us", "quick link", "registration",
   "why choose", "core strengths", "your message has been sent",
   "programs:", "jeremiah hosea", "rilwan ameen", "anthony kozikowsky",
   "george gawargi", "ivette garcia", "matthew rydell", "svetlana margoulis",
   "vera vitali", "stay in touch", "classes", "read more", "enroll",
   "private lessons", "individual instruction", "small group instruction"]

/-- The mutable locals of the sibling loop of scrape_alphaminds. -/
structure ScanState where
  age : String := "N/A"
  days : String := "N/A"
  times : String := "N/A"
  class_size : String := "N/A"
  class_length : String := "N/A"
  class_location : String := "N/A"
  description_parts : List String := []

/-- Worker modelling Python's `str.split` with a multi-character
separator; the fuel is the text length. -/
def splitOnStrAux (sep : List Char) : Nat → List Char → List (List Char)
  | _, [] => [[]]
  | 0, cs => [cs]
  | fuel + 1, c :: cs =>
    if !sep.isEmpty && leadsWith sep (c :: cs) then
      [] :: splitOnStrAux sep fuel ((c :: cs).drop sep.length)
    else
      match splitOnStrAux sep fuel cs with
      | [] => [[c]]
      | p :: ps => (c :: p) :: ps

/-- Model of Python's `str.split(sep)` for a non-empty separator. -/
def splitOnStr (sep : List Char) (cs : List Char) : List (List Char) :=
  splitOnStrAux sep cs.length cs

/-- The sibling accumulation loop of scrape_alphaminds, in source
order: break at the next heading or a register call-to-action, skip
scripts and empty texts, then the labeled age and days branches, the
secondary age search, the time branch, the size and duration branch,
description collection and the location branch. -/
def processSibs (soupAddress : Option String) : List Elem → ScanState → ScanState
  | [], st => st
  | sib :: rest, st =>
    if isHeadingTag sib.tag then st
    else if sib.tag == "div" && sib.hasRegisterLink then st
    else if sib.tag == "script"
        || (match sib.idAttr with
            | some i => containsSub i.data "wp-interactivity-store".data
            | none => false) then
      processSibs soupAddress rest st
    else
      let txt := sib.text
      if txt = "" then processSibs soupAddress rest st
      else
        let low := pyLower txt.data
        let st :=
          if st.age = "N/A" then
            match ageLineSearch txt.data with
            | some ageText =>
              match rxSearch ageRx ageText with
              | some m => { st with age := strOf (pyStrip m) }
              | none => st
            | none => st
          else st
        let st :=
          if st.days = "N/A" then
            match daysLineSearch txt.data with
            | some g1 =>
              let dayList := splitOnChar ',' g1
              let cleaned :=
                (dayList.filter (fun d => !(pyStrip d).isEmpty)).map
                  (fun d => pyCapitalize (pyStrip d))
              if cleaned.isEmpty then st
              else { st with days := strOf (joinWith ", ".data cleaned) }
            | none => st
          else st
        let st :=
          match rxSearch ageRx txt.data with
          | some m =>
            if st.age = "N/A" then { st with age := strOf (pyStrip m) } else st
          | none => st
        let st :=
          if rxHas timeWhenRx low || rxHas timeReAM txt.data then
            let tms := (finditer timeReAM txt.data).map pyStrip
            if tms.isEmpty then st
            else
              let current :=
                if st.times ≠ "N/A" then splitOnStr ", ".data st.times.data else []
              let newTimes := dedupeKeepFirst (current ++ tms)
              let times := strOf (joinWith ", ".data newTimes)
              let cl := parse_time_range_to_duration times
              let st := { st with times := times }
              if cl ≠ "N/A" && st.class_length = "N/A" then
                { st with class_length := cl }
              else st
          else st
        let st :=
          if rxHas sizeKwRx low || rxHas durKwRx low then
            let st :=
              match classSizeSearch txt.data with
              | some g => { st with class_size := strOf g }
              | none => st
            match rxSearch durationRx txt.data with
            | some m =>
              if st.class_length = "N/A" then
                { st with class_length := strOf (pyStrip m) }
              else st
            | none => st
          else st
        let st :=
          if (sib.tag == "p" || sib.tag == "div" || sib.tag == "li"
              || sib.tag == "ul" || sib.tag == "ol")
             && !containsSub txt.data "schoolMapsSettings".data
             && !containsSub txt.data "imports".data
             && !containsSub txt.data "var schoolMapsSettings".data then
            { st with description_parts := st.description_parts ++ [txt] }
          else st
        let st :=
          if st.class_location = "N/A" && rxHas addrKwRx low then
            let r := extract_size_length_address txt sib.nodeAddress soupAddress
            let sAddr := r.2.2
            if sAddr ≠ "" && sAddr ≠ "N/A" then { st with class_location := sAddr }
            else st
          else st
        processSibs soupAddress rest st

/-- Dictionary lookup with the sentinel default, as Python's
`row.get(key, sentinel)`. -/
def rowGet (row : List (String × String)) (k : String) : String :=
  match row.find? (fun p => p.1 == k) with
  | some p => p.2
  | none => "N/A"

/-- Order-preserving key deduplication (first occurrence wins). -/
def dedupeStrAux : List String → List String → List String
  | [], _ => []
  | x :: xs, seen =>
    if seen.contains x then dedupeStrAux xs seen
    else x :: dedupeStrAux xs (x :: seen)

/-- Model of the dict comprehension over the schema that every adapter
applies to its row: keys are the schema fields in first-occurrence
order (a Python dict collapses duplicate keys), values default to the
sentinel. -/
def projectToSchema (schema : List String) (get : String → String) : List (String × String) :=
  (dedupeStrAux schema []).map (fun k => (k, get k))

/-- Row construction of scrape_alphaminds for one heading block: the
sibling loop, description assembly, the aggressive fallback sweep, the
location pollution cleanup and the structured row.  `scrapeDate` models
the formatted current date of the source. -/
def alphamindsRow (url website scrapeDate : String)
    (soupAddress : Option String) (heading : Elem) (after : List Elem) :
    List (String × String) :=
  let class_type := ensure_field (some heading.text)
  let st := processSibs soupAddress after {}
    let description :=
      let d := strOf (pyStrip (joinWith " ".data
        ((st.description_parts.filter (fun x => x ≠ "")).map String.data)))
      if d = "" then "N/A" else d
    let full_text := class_type ++ " " ++ description
    let st :=
      if st.age = "N/A" || st.days = "N/A" || st.times = "N/A"
          || st.class_length = "N/A" then
        let g := extract_age_day_time_from_text (some full_text)
        let aGuess := g.1
        let dGuess := g.2.1
        let tGuess := g.2.2
        let st := if st.age = "N/A" && aGuess ≠ "N/A" then { st with age := aGuess } else st
        let st := if st.days = "N/A" && dGuess ≠ "N/A" then { st with days := dGuess } else st
        let st :=
          if st.times = "N/A" && tGuess ≠ "N/A" then
            let st := { st with times := tGuess }
            if st.class_length = "N/A" then
              let cl := parse_time_range_to_duration tGuess
              if cl ≠ "N/A" then { st with class_length := cl } else st
            else st
          else st
        match rxSearch durationRx full_text.data with
        | some m =>
          if st.class_length = "N/A" then { st with class_length := strOf (pyStrip m) }
          else st
        | none => st
      else st
    let class_location :=
      if st.class_location ≠ ""
         && (containsSub st.class_location.data "schoolMapsSettings".data
             || containsSub st.class_location.data "wordpress/interactivity".data
             || containsSub st.class_location.data "AIzaSyDn9tufwujzyp22Go".data) then
        "N/A"
      else st.class_location
    [("Website", website), ("PageURL", url),
     ("ClassTitle", ensure_field (some class_type)),
     ("ClassType", ensure_field (some class_type)),
     ("AgeRange", ensure_field (some st.age)),
     ("ClassSize", ensure_field (some st.class_size)),
     ("ClassLength", ensure_field (some st.class_length)),
     ("DayOfWeek", ensure_field (some st.days)),
     ("Times", ensure_field (some st.times)),
     ("ClassDescription", ensure_field (some description)),
     ("ClassLocation", ensure_field (some class_location)),
     ("ScrapeDate", scrapeDate)]

/-- The skip test of scrape_alphaminds: a heading whose (normalized,
lowercased) text contains any denylist keyword produces no record. -/
def alphaSkip (heading : Elem) : Bool :=
  skipKeywords.any (fun kw =>
    containsSub (pyLower (ensure_field (some heading.text)).data) kw.data)

/-- The final emission filter of scrape_alphaminds: a built row is
appended unless all three informative fields are unknown and the title
is one of the two placeholder headings. -/
def alphaEmit (row : List (String × String)) : Bool :=
  rowGet row "AgeRange" ≠ "N/A" || rowGet row "ClassLength" ≠ "N/A"
    || rowGet row "DayOfWeek" ≠ "N/A"
    || !(rowGet row "ClassTitle" = "Classes Offered"
         || rowGet row "ClassTitle" = "All Age Groups")

/-- Per-heading body of scrape_alphaminds: keyword skip, row building,
then the emission filter and the schema projection. -/
def alphamindsProcessHeading (url website scrapeDate : String)
    (soupAddress : Option String) (schema : List String)
    (heading : Elem) (after : List Elem) : Option (List (String × String)) :=
  if alphaSkip heading then none
  else
    let row := alphamindsRow url website scrapeDate soupAddress heading after
    if alphaEmit row then some (projectToSchema schema (rowGet row))
    else none

/-- The headings of a flat document, each with the elements after it
(the sibling loop stops at the next heading itself, reproducing the
block bound of `find_next_siblings`). -/
def headingsWithRest : List Elem → List (Elem × List Elem)
  | [] => []
  | e :: es =>
    (if isHeadingTag e.tag then [(e, es)] else []) ++ headingsWithRest es

/-- Model of scrape_alphaminds.  `doc = none` models a failed fetch
(empty markup), which yields zero candidate blocks. -/
def scrape_alphaminds (doc : Option (List Elem)) (url : String)
    (schema : List String) (website : String) (soupAddress : Option String)
    (scrapeDate : String) : List (List (String × String)) :=
  match doc with
  | none => []
  | some elems =>
    (headingsWithRest elems).filterMap (fun pr =>
      alphamindsProcessHeading url website scrapeDate soupAddress schema pr.1 pr.2)

/-! ## Dispatcher and job runner -/

/-- The adapters of the registry. -/
inductive ScraperId where
  | alphaminds
  | aquatots
  | soccershots
  | mygym
  | hisawyer
  | babybandstand
  | generic
deriving DecidableEq

/-- SCRAPER_REGISTRY of app.py as an association list in source order. -/
def SCRAPER_REGISTRY : List (String × ScraperId) :=
  [("alphamindsacademy", .alphaminds), ("aquatots", .aquatots),
   ("soccershots", .soccershots), ("mygym", .mygym),
   ("hisawyer", .hisawyer), ("babybandstand", .babybandstand),
   ("generic", .generic)]

/-- Python `dict.get` on the registry with the generic default. -/
def registryGet (wl : String) : ScraperId :=
  match SCRAPER_REGISTRY.find? (fun p => p.1 == wl) with
  | some p => p.2
  | none => .generic

/-- The adapter selection of run_scrape_job: lowercase the source name,
exact dictionary lookup with the generic default, then the mandatory
SoccerShots override for names containing either override substring. -/
def selectScraper (website : String) : ScraperId :=
  let wl := strOf (pyLower website.data)
  let f := registryGet wl
  if containsSub wl.data "soccershots".data
      || containsSub wl.data "hudsoncounty".data then
    .soccershots
  else f

/-- One page of configuration, as validated by the caller. -/
structure PageConfig where
  website : String
  url : String
  schema : Option (List String)

/-- Model of run_scrape_job.  `impl` gives the outcome of invoking each
adapter (an `Except` error models an exception raised inside the
invocation, caught by the boundary handler, which then sets the item
list empty).  The result is the argument of the sink call: `none` when
the page is skipped for an invalid schema or when no items were found
(the source returns before calling the loader), `some items`
otherwise. -/
def runScrapeJob (cfg : PageConfig)
    (impl : ScraperId → Except String (List (List (String × String)))) :
    Option (List (List (String × String))) :=
  match cfg.schema with
  | none => none
  | some _ =>
    let sid := selectScraper cfg.website
    let items :=
      match impl sid with
      | .ok l => l
      | .error _ => []
    if items.isEmpty then none else some items

/-- Model of the run-once loop of schedule_all_jobs: every page is
processed independently, in order. -/
def runBatch (pages : List PageConfig)
    (impl : ScraperId → Except String (List (List (String × String)))) :
    List (Option (List (List (String × String)))) :=
  pages.map (fun p => runScrapeJob p impl)

/-- Model of the row-matrix construction of GoogleSheetLoader.append_rows:
one value list per record, in header order, with the sentinel default. -/
def appendRowsValues (rows : List (List (String × String)))
    (header : List String) : List (List String) :=
  rows.map (fun r => header.map (fun h => rowGet r h))

/-! ## Generic lemmas: characters, stripping, joining -/

theorem pySpace_cases {c : Char} (h : isPySpace c = true) :
    c = ' ' ∨ c = '\t' ∨ c = '\n' ∨ c = '\r' ∨ c = '\x0b' ∨ c = '\x0c' := by
  simp [isPySpace] at h
  tauto

theorem pyToLower_of_space {c : Char} (h : isPySpace c = true) :
    pyToLower c = c := by
  rcases pySpace_cases h with h | h | h | h | h | h <;> subst h <;> decide

theorem caseTable_fst_not_space : ∀ p ∈ caseTable, isPySpace p.1 = false := by
  decide

theorem caseTable_snd_not_space : ∀ p ∈ caseTable, isPySpace p.2 = false := by
  decide

theorem pyToUpper_space {c : Char} (h : isPySpace (pyToUpper c) = true) :
    isPySpace c = true := by
  unfold pyToUpper at h
  cases hf : caseTable.find? (fun p => p.2 == c) with
  | none => rw [hf] at h; exact h
  | some p =>
    rw [hf] at h
    have hp := List.mem_of_find?_eq_some hf
    have := caseTable_fst_not_space p hp
    simp at h
    rw [this] at h
    exact absurd h (by simp)

theorem pyToLower_space {c : Char} (h : isPySpace (pyToLower c) = true) :
    isPySpace c = true := by
  unfold pyToLower at h
  cases hf : caseTable.find? (fun p => p.1 == c) with
  | none => rw [hf] at h; exact h
  | some p =>
    rw [hf] at h
    have hp := List.mem_of_find?_eq_some hf
    have := caseTable_snd_not_space p hp
    simp at h
    rw [this] at h
    exact absurd h (by simp)

theorem pyToUpper_not_space {c : Char} (h : isPySpace c = false) :
    isPySpace (pyToUpper c) = false := by
  cases hx : isPySpace (pyToUpper c) with
  | false => rfl
  | true => simp [pyToUpper_space hx] at h

theorem pyToLower_not_space {c : Char} (h : isPySpace c = false) :
    isPySpace (pyToLower c) = false := by
  cases hx : isPySpace (pyToLower c) with
  | false => rfl
  | true => simp [pyToLower_space hx] at h

theorem cls_noWs {k : Cls} (hk : k.noWsChk = true) {c : Char}
    (hc : k.mem c = true) : isPySpace c = false := by
  cases k with
  | digit =>
    cases hs : isPySpace c with
    | false => rfl
    | true =>
      rcases pySpace_cases hs with h | h | h | h | h | h <;> subst h <;>
        exact absurd hc (by decide)
  | notDigit => exact absurd hk (by decide)
  | ws => exact absurd hk (by decide)
  | dot => exact absurd hk (by decide)
  | ciChar x =>
    cases hs : isPySpace c with
    | false => rfl
    | true =>
      exfalso
      have h1 : pyToLower c = x := by simpa [Cls.mem] using hc
      rw [pyToLower_of_space hs] at h1
      subst h1
      simp [Cls.noWsChk, hs] at hk
  | oneOf l =>
    have hm : c ∈ l := by
      simpa [Cls.mem] using hc
    have hall : ∀ x ∈ l, isPySpace x = false := by
      simpa [Cls.noWsChk] using hk
    exact hall c hm
  | wsOr l => simp [Cls.noWsChk] at hk

theorem take_all_takeWhile {p : Char → Bool} :
    ∀ (cs : List Char) (i : Nat), i ≤ (cs.takeWhile p).length →
      ∀ c ∈ cs.take i, p c = true := by
  intro cs
  induction cs with
  | nil => intro i hi c hc; simp at hc
  | cons a as ih =>
    intro i hi c hc
    cases i with
    | zero => simp at hc
    | succ n =>
      cases hp : p a with
      | false => simp [List.takeWhile_cons, hp] at hi
      | true =>
        simp [List.takeWhile_cons, hp] at hi
        simp [List.take_succ_cons] at hc
        rcases hc with hc | hc
        · rw [hc]; exact hp
        · exact ih n (by omega) c hc

theorem star_mem_shape {k : Cls} {prev : Option Char} {cs m rest : List Char}
    (h : (m, rest) ∈ (Rx.star k).matchList prev cs) :
    ∃ i, i ≤ (cs.takeWhile k.mem).length ∧ m = cs.take i ∧ rest = cs.drop i := by
  simp [Rx.matchList] at h
  obtain ⟨i, hi, h2, h3⟩ := h
  exact ⟨i, by omega, h2.symm, h3.symm⟩

theorem lazyStar_mem_shape {k : Cls} {prev : Option Char} {cs m rest : List Char}
    (h : (m, rest) ∈ (Rx.lazyStar k).matchList prev cs) :
    ∃ i, i ≤ (cs.takeWhile k.mem).length ∧ m = cs.take i ∧ rest = cs.drop i := by
  simp [Rx.matchList] at h
  obtain ⟨i, hi, h2, h3⟩ := h
  exact ⟨i, by omega, h2.symm, h3.symm⟩

theorem noWs_sound : ∀ (r : Rx), r.noWsChk = true →
    ∀ (prev : Option Char) (cs m rest : List Char),
      (m, rest) ∈ r.matchList prev cs → ∀ c ∈ m, isPySpace c = false := by
  intro r
  induction r with
  | eps =>
    intro _ _ _ m _ h c hc
    simp [Rx.matchList] at h
    rw [h.1] at hc
    simp at hc
  | cls k =>
    intro hk prev cs m rest h c hc
    cases cs with
    | nil => simp [Rx.matchList] at h
    | cons a as =>
      by_cases hm : k.mem a = true
      · simp [Rx.matchList, hm] at h
        rw [h.1] at hc
        simp at hc
        rw [hc]
        exact cls_noWs (by simpa [Rx.noWsChk] using hk) hm
      · simp [Rx.matchList, hm] at h
  | seq a b iha ihb =>
    intro hk prev cs m rest h c hc
    simp [Rx.noWsChk] at hk
    simp [Rx.matchList] at h
    obtain ⟨m1, r1, h1, m2, h2, hm⟩ := h
    rw [← hm] at hc
    rcases List.mem_append.mp hc with hc | hc
    · exact iha hk.1 prev cs m1 r1 h1 c hc
    · exact ihb hk.2 (lastOr prev m1) r1 m2 rest h2 c hc
  | alt a b iha ihb =>
    intro hk prev cs m rest h c hc
    simp [Rx.noWsChk] at hk
    rcases List.mem_append.mp h with h | h
    · exact iha hk.1 prev cs m rest h c hc
    · exact ihb hk.2 prev cs m rest h c hc
  | star k =>
    intro hk prev cs m rest h c hc
    obtain ⟨i, hi, hm, _⟩ := star_mem_shape h
    rw [hm] at hc
    exact cls_noWs (by simpa [Rx.noWsChk] using hk) (take_all_takeWhile cs i hi c hc)
  | lazyStar k =>
    intro hk prev cs m rest h c hc
    obtain ⟨i, hi, hm, _⟩ := lazyStar_mem_shape h
    rw [hm] at hc
    exact cls_noWs (by simpa [Rx.noWsChk] using hk) (take_all_takeWhile cs i hi c hc)
  | wb =>
    intro _ prev cs m rest h c hc
    simp [Rx.matchList] at h
    rcases h with ⟨_, h, _⟩
    rw [h] at hc
    simp at hc
  | eos =>
    intro _ prev cs m rest h c hc
    simp [Rx.matchList] at h
    rcases h with ⟨_, h, _⟩
    rw [h] at hc
    simp at hc

theorem strong_sound : ∀ (r : Rx), r.strongChk = true →
    ∀ (prev : Option Char) (cs m rest : List Char),
      (m, rest) ∈ r.matchList prev cs → ∃ c, c ∈ m ∧ isPySpace c = false := by
  intro r
  induction r with
  | eps => intro hk; simp [Rx.strongChk] at hk
  | cls k =>
    intro hk prev cs m rest h
    cases cs with
    | nil => simp [Rx.matchList] at h
    | cons a as =>
      by_cases hm : k.mem a = true
      · simp [Rx.matchList, hm] at h
        refine ⟨a, ?_, cls_noWs (by simpa [Rx.strongChk] using hk) hm⟩
        rw [h.1]
        simp
      · simp [Rx.matchList, hm] at h
  | seq a b iha ihb =>
    intro hk prev cs m rest h
    simp [Rx.matchList] at h
    obtain ⟨m1, r1, h1, m2, h2, hm⟩ := h
    rcases Bool.or_eq_true _ _ |>.mp (by simpa [Rx.strongChk] using hk) with hs | hs
    · obtain ⟨c, hc, hw⟩ := iha hs prev cs m1 r1 h1
      exact ⟨c, by rw [← hm]; exact List.mem_append.mpr (Or.inl hc), hw⟩
    · obtain ⟨c, hc, hw⟩ := ihb hs (lastOr prev m1) r1 m2 rest h2
      exact ⟨c, by rw [← hm]; exact List.mem_append.mpr (Or.inr hc), hw⟩
  | alt a b iha ihb =>
    intro hk prev cs m rest h
    simp [Rx.strongChk] at hk
    rcases List.mem_append.mp h with h | h
    · exact iha hk.1 prev cs m rest h
    · exact ihb hk.2 prev cs m rest h
  | star k => intro hk; simp [Rx.strongChk] at hk
  | lazyStar k => intro hk; simp [Rx.strongChk] at hk
  | wb => intro hk; simp [Rx.strongChk] at hk
  | eos => intro hk; simp [Rx.strongChk] at hk

theorem searchFrom_mem {r : Rx} :
    ∀ (cs : List Char) (prev : Option Char) (m rest : List Char),
      searchFrom r prev cs = some (m, rest) →
      ∃ prev2 cs2, (m, rest) ∈ r.matchList prev2 cs2 := by
  intro cs
  induction cs with
  | nil =>
    intro prev m rest h
    rw [searchFrom] at h
    cases hm : r.matchList prev [] with
    | nil => rw [hm] at h; simp at h
    | cons x xs =>
      rw [hm] at h
      simp at h
      exact ⟨prev, [], by rw [hm, h]; simp⟩
  | cons c cs ih =>
    intro prev m rest h
    rw [searchFrom] at h
    cases hm : r.matchList prev (c :: cs) with
    | nil =>
      rw [hm] at h
      exact ih (some c) m rest h
    | cons x xs =>
      rw [hm] at h
      simp at h
      exact ⟨prev, c :: cs, by rw [hm, h]; simp⟩

theorem rxSearch_mem {r : Rx} {cs m : List Char}
    (h : rxSearch r cs = some m) :
    ∃ prev2 cs2 rest, (m, rest) ∈ r.matchList prev2 cs2 := by
  unfold rxSearch at h
  cases hs : searchFrom r none cs with
  | none => rw [hs] at h; simp at h
  | some p =>
    rw [hs] at h
    simp at h
    obtain ⟨prev2, cs2, hmem⟩ := searchFrom_mem cs none p.1 p.2 hs
    exact ⟨prev2, cs2, p.2, by rw [h] at hmem; exact hmem⟩

theorem finditerAux_mem {r : Rx} :
    ∀ (fuel : Nat) (prev : Option Char) (cs m : List Char),
      m ∈ finditerAux r fuel prev cs →
      ∃ prev2 cs2 rest, (m, rest) ∈ r.matchList prev2 cs2 := by
  intro fuel
  induction fuel with
  | zero => intro prev cs m h; simp [finditerAux] at h
  | succ n ih =>
    intro prev cs m h
    cases cs with
    | nil =>
      rw [finditerAux] at h
      cases hm : r.matchList prev [] with
      | nil => rw [hm] at h; simp at h
      | cons x xs =>
        rw [hm] at h
        by_cases he : x.1.isEmpty
        · simp [he] at h
        · simp [he] at h
          rcases h with h | h
          · exact ⟨prev, [], x.2, by rw [hm, h]; simp⟩
          · exact ih (lastOr prev x.1) x.2 m h
    | cons c cs2 =>
      rw [finditerAux] at h
      cases hm : r.matchList prev (c :: cs2) with
      | nil =>
        rw [hm] at h
        exact ih (some c) cs2 m h
      | cons x xs =>
        rw [hm] at h
        by_cases he : x.1.isEmpty
        · simp [he] at h
          exact ih (some c) cs2 m h
        · simp [he] at h
          rcases h with h | h
          · exact ⟨prev, c :: cs2, x.2, by rw [hm, h]; simp⟩
          · exact ih (lastOr prev x.1) x.2 m h

theorem finditer_mem {r : Rx} {cs m : List Char}
    (h : m ∈ finditer r cs) :
    ∃ prev2 cs2 rest, (m, rest) ∈ r.matchList prev2 cs2 :=
  finditerAux_mem (cs.length + 1) none cs m h

theorem dropWhile_head_false {p : Char → Bool} :
    ∀ {l t : List Char} {c : Char}, l.dropWhile p = c :: t → p c = false := by
  intro l
  induction l with
  | nil => intro t c h; simp at h
  | cons a as ih =>
    intro t c h
    rw [List.dropWhile_cons] at h
    by_cases hp : p a = true
    · simp [hp] at h; exact ih h
    · simp [hp] at h
      rw [← h.1]
      simpa using hp

theorem dropWhile_eq_self_of_head {p : Char → Bool} {l : List Char}
    (h : ∀ c, l.head? = some c → p c = false) : l.dropWhile p = l := by
  cases l with
  | nil => rfl
  | cons a as => rw [List.dropWhile_cons]; simp [h a rfl]

theorem mem_dropWhile_of_not {p : Char → Bool} :
    ∀ {l : List Char} {c : Char}, c ∈ l → p c = false → c ∈ l.dropWhile p := by
  intro l
  induction l with
  | nil => intro c h; simp at h
  | cons a as ih =>
    intro c hc hpc
    rw [List.dropWhile_cons]
    by_cases hp : p a = true
    · simp only [hp, if_true]
      rcases List.mem_cons.mp hc with he | h
      · rw [he] at hpc; rw [hpc] at hp; exact absurd hp (by simp)
      · exact ih h hpc
    · simp only [hp, if_false, Bool.false_eq_true]
      exact hc

theorem pyStrip_ne_nil {l : List Char} {c : Char} (hc : c ∈ l)
    (hw : isPySpace c = false) : pyStrip l ≠ [] := by
  unfold pyStrip
  intro h
  have h1 : c ∈ (l.dropWhile isPySpace).reverse.dropWhile isPySpace := by
    apply mem_dropWhile_of_not _ hw
    rw [List.mem_reverse]
    exact mem_dropWhile_of_not hc hw
  rw [List.reverse_eq_nil_iff.mp h] at h1
  simp at h1

theorem pyStrip_eq_self {l : List Char}
    (h1 : ∀ c, l.head? = some c → isPySpace c = false)
    (h2 : ∀ c, l.getLast? = some c → isPySpace c = false) :
    pyStrip l = l := by
  unfold pyStrip
  rw [dropWhile_eq_self_of_head h1]
  rw [dropWhile_eq_self_of_head (by intro c hc; rw [List.head?_reverse] at hc; exact h2 c hc)]
  exact List.reverse_reverse l

theorem getLast?_dropWhile {p : Char → Bool} :
    ∀ {l : List Char}, l.dropWhile p ≠ [] →
      (l.dropWhile p).getLast? = l.getLast? := by
  intro l
  induction l with
  | nil => intro h; exact absurd rfl h
  | cons a as ih =>
    intro h
    rw [List.dropWhile_cons] at h ⊢
    by_cases hp : p a = true
    · simp only [hp, if_true] at h ⊢
      rw [ih h]
      have has : as ≠ [] := by
        intro he; rw [he] at h; simp at h
      cases as with
      | nil => exact absurd rfl has
      | cons b bs => simp
    · simp [hp]

theorem pyStrip_head {l : List Char} :
    ∀ c, (pyStrip l).head? = some c → isPySpace c = false := by
  intro c hc
  unfold pyStrip at hc
  rw [List.head?_reverse] at hc
  have hM : (l.dropWhile isPySpace).reverse.dropWhile isPySpace ≠ [] := by
    intro h; rw [h] at hc; simp at hc
  rw [getLast?_dropWhile hM, List.getLast?_reverse] at hc
  cases hF : l.dropWhile isPySpace with
  | nil => rw [hF] at hc; simp at hc
  | cons a t =>
    rw [hF] at hc
    simp at hc
    rw [← hc]
    exact dropWhile_head_false hF

theorem pyStrip_last {l : List Char} :
    ∀ c, (pyStrip l).getLast? = some c → isPySpace c = false := by
  intro c hc
  unfold pyStrip at hc
  rw [List.getLast?_reverse] at hc
  cases hM : (l.dropWhile isPySpace).reverse.dropWhile isPySpace with
  | nil => rw [hM] at hc; simp at hc
  | cons a t =>
    rw [hM] at hc
    simp at hc
    rw [← hc]
    exact dropWhile_head_false hM

theorem head?_append_left {x z : List Char} (h : x ≠ []) :
    (x ++ z).head? = x.head? := by
  cases x with
  | nil => exact absurd rfl h
  | cons a t => rfl

theorem getLast?_append_right {x z : List Char} (h : z ≠ []) :
    (x ++ z).getLast? = z.getLast? :=
  List.getLast?_append_of_ne_nil x h

/-- A resolved field value in the weaker normal form the code actually
guarantees: the sentinel, or a non-empty string equal to its own
strip. -/
def trimmedField (s : String) : Prop :=
  s = "N/A" ∨ (s ≠ "" ∧ pyStrip s.data = s.data)

theorem trimmedField_of_ends {l : List Char} (hne : l ≠ [])
    (h1 : ∀ c, l.head? = some c → isPySpace c = false)
    (h2 : ∀ c, l.getLast? = some c → isPySpace c = false) :
    trimmedField (strOf l) := by
  right
  constructor
  · intro h
    apply hne
    have := congrArg String.data h
    simpa [strOf] using this
  · show pyStrip (strOf l).data = (strOf l).data
    simpa [strOf] using pyStrip_eq_self h1 h2

theorem trimmedField_strip {m : List Char} (hne : pyStrip m ≠ []) :
    trimmedField (strOf (pyStrip m)) :=
  trimmedField_of_ends hne (pyStrip_head) (pyStrip_last)

theorem ensure_field_trimmed (v : Option String) :
    trimmedField (ensure_field v) := by
  cases v with
  | none => left; rfl
  | some s =>
    unfold ensure_field
    by_cases h : strOf (pyStrip s.data) = ""
    · simp only [h, if_pos rfl]
      left; rfl
    · simp only [if_neg h]
      have hne : pyStrip s.data ≠ [] := by
        intro hx
        apply h
        rw [hx]
        rfl
      exact trimmedField_strip hne

/-- The three boundary facts used for joined field values. -/
def goodPart (p : List Char) : Prop :=
  p ≠ [] ∧ (∀ c, p.head? = some c → isPySpace c = false)
    ∧ (∀ c, p.getLast? = some c → isPySpace c = false)

theorem goodPart_strip {m : List Char} (hne : pyStrip m ≠ []) :
    goodPart (pyStrip m) :=
  ⟨hne, pyStrip_head, pyStrip_last⟩

theorem joinWith_good {sep : List Char} :
    ∀ {parts : List (List Char)}, parts ≠ [] →
      (∀ p ∈ parts, goodPart p) → goodPart (joinWith sep parts) := by
  intro parts
  induction parts with
  | nil => intro h; exact absurd rfl h
  | cons x xs ih =>
    intro _ hall
    cases xs with
    | nil =>
      have hx := hall x (by simp)
      simpa [joinWith] using hx
    | cons y ys =>
      have hx := hall x (by simp)
      have hrec : goodPart (joinWith sep (y :: ys)) := by
        apply ih (by simp)
        intro p hp
        exact hall p (by simp [hp])
      show goodPart (x ++ sep ++ joinWith sep (y :: ys))
      refine ⟨by simp [hx.1], ?_, ?_⟩
      · intro c hc
        rw [show x ++ sep ++ joinWith sep (y :: ys)
              = x ++ (sep ++ joinWith sep (y :: ys)) by simp] at hc
        rw [head?_append_left hx.1] at hc
        exact hx.2.1 c hc
      · intro c hc
        rw [getLast?_append_right hrec.1] at hc
        exact hrec.2.2 c hc

theorem goodPart_trimmedField {l : List Char} (h : goodPart l) :
    trimmedField (strOf l) :=
  trimmedField_of_ends h.1 h.2.1 h.2.2

theorem mem_dedupeAux :
    ∀ {l seen : List (List Char)} {x : List Char},
      x ∈ dedupeAux l seen → x ∈ l := by
  intro l
  induction l with
  | nil => intro seen x h; simp [dedupeAux] at h
  | cons a as ih =>
    intro seen x h
    rw [dedupeAux] at h
    by_cases hs : seen.contains a
    · simp only [hs, if_true] at h
      exact List.mem_cons.mpr (Or.inr (ih h))
    · simp only [hs, if_false] at h
      rcases List.mem_cons.mp h with he | h2
      · exact List.mem_cons.mpr (Or.inl he)
      · exact List.mem_cons.mpr (Or.inr (ih h2))

theorem mem_collectDaysAux :
    ∀ {ms acc : List (List Char)} {e : List Char},
      e ∈ collectDaysAux ms acc →
      e ∈ acc ∨ ∃ w ∈ ms, e = pyCapitalize (pyStrip w) := by
  intro ms
  induction ms with
  | nil =>
    intro acc e h
    rw [collectDaysAux] at h
    exact Or.inl (List.mem_reverse.mp h)
  | cons w ws ih =>
    intro acc e h
    rw [collectDaysAux] at h
    by_cases hs : ((acc.map pyLower).contains (pyLower (pyStrip w))) = true
    · simp only [hs, if_true] at h
      rcases ih h with h2 | ⟨w2, hw2, he⟩
      · exact Or.inl h2
      · exact Or.inr ⟨w2, by simp [hw2], he⟩
    · simp only [hs, if_false] at h
      rcases ih h with h2 | ⟨w2, hw2, he⟩
      · rcases List.mem_cons.mp h2 with he | h3
        · exact Or.inr ⟨w, by simp, he⟩
        · exact Or.inl h3
      · exact Or.inr ⟨w2, by simp [hw2], he⟩

theorem pyCapitalize_good {l : List Char} (h : goodPart l) :
    goodPart (pyCapitalize l) := by
  obtain ⟨hne, hh, hl⟩ := h
  cases l with
  | nil => exact absurd rfl hne
  | cons a t =>
    rw [pyCapitalize]
    have ha : isPySpace a = false := hh a rfl
    cases t with
    | nil =>
      refine ⟨by simp, ?_, ?_⟩
      · intro c hc
        simp at hc
        rw [← hc]
        exact pyToUpper_not_space ha
      · intro c hc
        simp at hc
        rw [← hc]
        exact pyToUpper_not_space ha
    | cons b bs =>
      refine ⟨by simp, ?_, ?_⟩
      · intro c hc
        simp at hc
        rw [← hc]
        exact pyToUpper_not_space ha
      · intro c hc
        rw [show pyToUpper a :: (b :: bs).map pyToLower
              = [pyToUpper a] ++ (b :: bs).map pyToLower by simp] at hc
        rw [getLast?_append_right (by simp)] at hc
        rw [List.getLast?_map] at hc
        cases hg : (b :: bs).getLast? with
        | none => rw [hg] at hc; simp at hc
        | some d =>
          rw [hg] at hc
          simp at hc
          rw [← hc]
          apply pyToLower_not_space
          exact hl d (by rw [List.getLast?_cons_cons]; exact hg)

theorem dedupe_ne_nil {l : List (List Char)} (h : l ≠ []) :
    dedupeKeepFirst l ≠ [] := by
  cases l with
  | nil => exact absurd rfl h
  | cons x xs =>
    rw [dedupeKeepFirst, dedupeAux]
    simp

theorem searchStrip_trimmed {r : Rx} (hr : r.strongChk = true) (cs : List Char) :
    trimmedField
      (match rxSearch r cs with
       | some m => strOf (pyStrip m)
       | none => "N/A") := by
  cases hm : rxSearch r cs with
  | none => exact Or.inl rfl
  | some m =>
    obtain ⟨p2, c2, rest, hmem⟩ := rxSearch_mem hm
    obtain ⟨c, hc, hw⟩ := strong_sound r hr p2 c2 m rest hmem
    exact trimmedField_strip (pyStrip_ne_nil hc hw)

theorem extract_age_day_time_trimmed (t : Option String) :
    trimmedField (extract_age_day_time_from_text t).1
    ∧ trimmedField (extract_age_day_time_from_text t).2.1
    ∧ trimmedField (extract_age_day_time_from_text t).2.2 := by
  cases t with
  | none => exact ⟨Or.inl rfl, Or.inl rfl, Or.inl rfl⟩
  | some s =>
    unfold extract_age_day_time_from_text
    by_cases hs : s = ""
    · simp only [if_pos hs]
      exact ⟨Or.inl rfl, Or.inl rfl, Or.inl rfl⟩
    · simp only [if_neg hs]
      refine ⟨?_, ?_, ?_⟩
      · exact searchStrip_trimmed (by decide) (normalizeWs s.data)
      · by_cases hd :
          (collectDaysAux (finditer dayRx (normalizeWs s.data)) []).isEmpty = true
        · simp only [hd, if_pos rfl]
          exact Or.inl rfl
        · simp only [hd]
          simp only [Bool.false_eq_true, if_false]
          apply goodPart_trimmedField
          apply joinWith_good
          · intro he
            rw [he] at hd
            simp at hd
          · intro p hp
            rcases mem_collectDaysAux hp with h2 | ⟨w, hw, he⟩
            · simp at h2
            · obtain ⟨p2, c2, rest, hmem⟩ := finditer_mem hw
              obtain ⟨c, hc, hcw⟩ := strong_sound dayRx (by decide) p2 c2 w rest hmem
              rw [he]
              exact pyCapitalize_good (goodPart_strip (pyStrip_ne_nil hc hcw))
      · by_cases ht :
          ((finditer timeRx (normalizeWs s.data)).map pyStrip).isEmpty = true
        · simp only [ht, if_pos rfl]
          exact Or.inl rfl
        · simp only [ht]
          simp only [Bool.false_eq_true, if_false]
          apply goodPart_trimmedField
          apply joinWith_good
          · apply dedupe_ne_nil
            intro he
            rw [he] at ht
            simp at ht
          · intro p hp
            have hp2 := mem_dedupeAux hp
            rcases List.mem_map.mp hp2 with ⟨w, hw, he⟩
            obtain ⟨p2, c2, rest, hmem⟩ := finditer_mem hw
            obtain ⟨c, hc, hcw⟩ := strong_sound timeRx (by decide) p2 c2 w rest hmem
            rw [← he]
            exact goodPart_strip (pyStrip_ne_nil hc hcw)

theorem extract_size_length_address_trimmed (txt : String)
    (na sa : Option String) :
    trimmedField (extract_size_length_address txt na sa).1
    ∧ trimmedField (extract_size_length_address txt na sa).2.1
    ∧ trimmedField (extract_size_length_address txt na sa).2.2 := by
  unfold extract_size_length_address
  dsimp only
  exact ⟨ensure_field_trimmed _, ensure_field_trimmed _, ensure_field_trimmed _⟩

/-- Whether the character list has no run of two adjacent whitespace
characters. -/
def noWsRun : List Char → Bool
  | [] => true
  | [_] => true
  | a :: b :: rest => !(isPySpace a && isPySpace b) && noWsRun (b :: rest)

/-- The normal form asserted by the claim: the sentinel, or non-empty,
trimmed, and free of internal whitespace runs. -/
def normalizedField (s : String) : Prop :=
  s = "N/A" ∨ (s ≠ "" ∧ pyStrip s.data = s.data ∧ noWsRun s.data = true)

/-! ## Lemmas for the duration computation -/

theorem finishTime_lt {h m : Nat} {b : Bool} {rest : List Char} {t : Nat}
    (ht : finishTime h m b rest = some t) : t < 1440 := by
  unfold finishTime at ht
  dsimp only at ht
  split at ht
  · split at ht
    · rename_i hcond
      simp only [Bool.and_eq_true, decide_eq_true_eq] at hcond
      injection ht with ht2
      repeat' split at ht2
      all_goals omega
    · exact absurd ht (by simp)
  · split at ht
    · rename_i hcond
      simp only [Bool.and_eq_true, decide_eq_true_eq] at hcond
      injection ht with ht2
      omega
    · exact absurd ht (by simp)

theorem parseTimeToken_lt {s : String} {t : Nat}
    (h : parseTimeToken s = some t) : t < 1440 := by
  unfold parseTimeToken at h
  dsimp only at h
  split at h
  · exact absurd h (by simp)
  · split at h
    · split at h
      · exact absurd h (by simp)
      · exact finishTime_lt h
    · exact finishTime_lt h

theorem span_chain (n : Nat) :
    (if (n : Int) ≤ 0 ∨ 360 < (n : Int) then "N/A"
     else if (n : Int) < 60 then toString ((n : Int)).toNat ++ "m"
     else if (n : Int) % 60 = 0 then toString ((n : Int) / 60).toNat ++ "h"
     else toString ((n : Int) / 60).toNat ++ "h"
       ++ toString ((n : Int) % 60).toNat ++ "m")
    = (if n = 0 ∨ 360 < n then "N/A" else formatDuration n) := by
  have htn : ((n : Int)).toNat = n := Int.toNat_natCast n
  have hdiv : ((n : Int) / 60).toNat = n / 60 := by omega
  have hmod : ((n : Int) % 60).toNat = n % 60 := by omega
  unfold formatDuration
  by_cases h1 : n = 0 ∨ 360 < n
  · rw [if_pos (by omega : (n : Int) ≤ 0 ∨ 360 < (n : Int)), if_pos h1]
  · rw [if_neg (by omega : ¬((n : Int) ≤ 0 ∨ 360 < (n : Int))), if_neg h1]
    by_cases h2 : n < 60
    · rw [if_pos (by omega : (n : Int) < 60), if_pos h2, htn]
    · rw [if_neg (by omega : ¬((n : Int) < 60)), if_neg h2]
      dsimp only
      by_cases h3 : n % 60 = 0
      · rw [if_pos (by omega : (n : Int) % 60 = 0), if_pos h3, hdiv]
      · rw [if_neg (by omega : ¬((n : Int) % 60 = 0)), if_neg h3, hdiv, hmod]

theorem durationFrom_spec (t0 t1 : Nat) (h0 : t0 < 1440) (h1 : t1 < 1440) :
    durationFrom t0 t1 =
      (let span : Int := (t1 : Int) - t0 + (if t1 < t0 then 1440 else 0)
       if span ≤ 0 ∨ 360 < span then "N/A"
       else if span < 60 then toString span.toNat ++ "m"
       else if span % 60 = 0 then toString (span / 60).toNat ++ "h"
       else toString (span / 60).toNat ++ "h"
         ++ toString (span % 60).toNat ++ "m") := by
  dsimp only
  by_cases hlt : t1 < t0
  · have hspan : (t1 : Int) - t0 + (if t1 < t0 then (1440 : Int) else 0)
        = ((t1 + 1440 - t0 : Nat) : Int) := by
      rw [if_pos hlt]
      omega
    rw [hspan, span_chain]
    unfold durationFrom
    dsimp only
    rw [if_pos hlt]
  · have hspan : (t1 : Int) - t0 + (if t1 < t0 then (1440 : Int) else 0)
        = ((t1 - t0 : Nat) : Int) := by
      rw [if_neg hlt]
      omega
    rw [hspan, span_chain]
    unfold durationFrom
    dsimp only
    rw [if_neg hlt]

theorem gate_imp_ne {s : String} (hg : rxHas gateRx s.data = true) :
    s ≠ "" ∧ s ≠ "N/A" := by
  constructor <;> intro he <;> subst he <;> exact absurd hg (by decide)

/-! ## Claim theorems -/

/-- C1: for every time-range string whose two endpoints parse as
times-of-day, parse_time_range_to_duration adds 24 hours exactly once
when the end precedes the start, returns the sentinel when the span is
not positive or above 360 minutes, and otherwise formats the span as
bare minutes under an hour, else hours with the minute remainder
omitted when zero; in particular the three example ranges of the claim
give 45m, 2h and the sentinel. -/
theorem C1_duration_computation :
    (∀ (s p0 p1 : String) (t0 t1 : Nat),
      rxHas gateRx s.data = true →
      splitTimeRange s = [p0, p1] →
      parseTimeToken p0 = some t0 →
      parseTimeToken p1 = some t1 →
      parse_time_range_to_duration s =
        (let span : Int := (t1 : Int) - t0 + (if t1 < t0 then 1440 else 0)
         if span ≤ 0 ∨ 360 < span then "N/A"
         else if span < 60 then toString span.toNat ++ "m"
         else if span % 60 = 0 then toString (span / 60).toNat ++ "h"
         else toString (span / 60).toNat ++ "h"
           ++ toString (span % 60).toNat ++ "m"))
    ∧ parse_time_range_to_duration "9:30 AM - 10:15 AM" = "45m"
    ∧ parse_time_range_to_duration "11:00 PM - 1:00 AM" = "2h"
    ∧ parse_time_range_to_duration "9:00 AM - 9:00 AM" = "N/A" := by
  refine ⟨?_, by decide, by decide, by decide⟩
  intro s p0 p1 t0 t1 hg hsplit h0 h1
  obtain ⟨hne, hna⟩ := gate_imp_ne hg
  have hb0 := parseTimeToken_lt h0
  have hb1 := parseTimeToken_lt h1
  unfold parse_time_range_to_duration
  rw [if_neg (by simp [hne, hna])]
  rw [if_neg (by simp [hg])]
  rw [hsplit]
  dsimp only
  rw [h0, h1]
  exact durationFrom_spec t0 t1 hb0 hb1

/-- Witness for C1: the general conjunct applied at a concrete range. -/
theorem C1_duration_computation_witness :
    parse_time_range_to_duration "8:00 AM - 9:10 AM" = "1h10m" := by
  have h := C1_duration_computation.1 "8:00 AM - 9:10 AM" "8:00 AM" "9:10 AM"
    480 550 (by decide) (by decide) (by decide) (by decide)
  rw [h]
  decide

/-- C10: parse_time_range_to_duration is total and returns the sentinel
for every string the time-marker gate rejects (no colon or meridiem
immediately before a dash that is followed by a digit); in particular
the bare numeric range and the grade token of the claim are rejected by
the gate and return the sentinel. -/
theorem C10_gate_required :
    (∀ s : String, rxHas gateRx s.data = false →
      parse_time_range_to_duration s = "N/A")
    ∧ rxHas gateRx "9 - 10".data = false
    ∧ parse_time_range_to_duration "9 - 10" = "N/A"
    ∧ rxHas gateRx "Grade 1 - 5".data = false
    ∧ parse_time_range_to_duration "Grade 1 - 5" = "N/A" := by
  refine ⟨?_, by decide, by decide, by decide, by decide⟩
  intro s h
  unfold parse_time_range_to_duration
  by_cases h1 : s = "" ∨ s = "N/A"
  · rw [if_pos h1]
  · rw [if_neg h1, if_pos (by simp [h])]

/-- Witness for C10: the general conjunct applied at a concrete
non-time string. -/
theorem C10_gate_required_witness :
    parse_time_range_to_duration "hello world" = "N/A" :=
  C10_gate_required.1 "hello world" (by decide)

/-- C2 (counterexample): the field normalizer of the code does not
collapse internal whitespace runs — ensure_field applied to a string
with a double space returns it unchanged, so the claimed normal form
(trimmed with no internal runs, or the sentinel) fails. -/
theorem C2_counterexample_runs :
    ensure_field (some "a  b") = "a  b"
    ∧ ¬ normalizedField (ensure_field (some "a  b")) := by
  constructor
  · decide
  · unfold normalizedField
    decide

/-- C2 (amended): every field value produced by ensure_field,
extract_age_day_time_from_text and extract_size_length_address is the
sentinel or a non-empty string with no leading or trailing whitespace
(never null, empty, or whitespace-only); internal whitespace runs are
not collapsed. -/
theorem C2_normalization_amended :
    (∀ v : Option String, trimmedField (ensure_field v))
    ∧ (∀ t : Option String,
        trimmedField (extract_age_day_time_from_text t).1
        ∧ trimmedField (extract_age_day_time_from_text t).2.1
        ∧ trimmedField (extract_age_day_time_from_text t).2.2)
    ∧ (∀ (txt : String) (na sa : Option String),
        trimmedField (extract_size_length_address txt na sa).1
        ∧ trimmedField (extract_size_length_address txt na sa).2.1
        ∧ trimmedField (extract_size_length_address txt na sa).2.2) :=
  ⟨ensure_field_trimmed, extract_age_day_time_trimmed,
    extract_size_length_address_trimmed⟩

/-- C3 (counterexample): run_scrape_job performs no deduplication — an
adapter invocation that produces two distinct records sharing the same
title hands both of them to the sink unchanged. -/
theorem C3_counterexample_no_dedup :
    runScrapeJob
      { website := "alphamindsacademy", url := "http://x",
        schema := some ["ClassTitle", "Times"] }
      (fun _ => Except.ok
        [[("ClassTitle", "Yoga"), ("Times", "9:00 AM")],
         [("ClassTitle", "Yoga"), ("Times", "10:00 AM")]])
    = some [[("ClassTitle", "Yoga"), ("Times", "9:00 AM")],
            [("ClassTitle", "Yoga"), ("Times", "10:00 AM")]]
    ∧ rowGet [("ClassTitle", "Yoga"), ("Times", "9:00 AM")] "ClassTitle"
      = rowGet [("ClassTitle", "Yoga"), ("Times", "10:00 AM")] "ClassTitle"
    ∧ [("ClassTitle", "Yoga"), ("Times", "9:00 AM")]
      ≠ [("ClassTitle", "Yoga"), ("Times", "10:00 AM")] := by
  refine ⟨by decide, by decide, by decide⟩

/-- C3 (amended): the record set handed to the sink is exactly the
adapter's output, in order — no deduplication, no merging, no
filtering beyond the empty-set skip. -/
theorem C3_passthrough_amended :
    ∀ (cfg : PageConfig)
      (impl : ScraperId → Except String (List (List (String × String))))
      (sch : List String) (items : List (List (String × String))),
      cfg.schema = some sch →
      impl (selectScraper cfg.website) = Except.ok items →
      items ≠ [] →
      runScrapeJob cfg impl = some items := by
  intro cfg impl sch items hs himpl hne
  unfold runScrapeJob
  rw [hs]
  dsimp only
  rw [himpl]
  dsimp only
  rw [if_neg (by simpa [List.isEmpty_iff] using hne)]

/-- Witness for C3 (amended) at a concrete page and adapter outcome. -/
theorem C3_passthrough_amended_witness :
    runScrapeJob { website := "generic", url := "u", schema := some ["A"] }
      (fun _ => Except.ok [[("A", "1")]])
    = some [[("A", "1")]] :=
  C3_passthrough_amended _ _ ["A"] _ rfl rfl (by decide)

/-- C4 (counterexample): dispatch is by exact dictionary lookup, not by
substring matching — a source name that strictly contains the
registered identifier of the AlphaMinds adapter dispatches to the
Generic adapter. -/
theorem C4_counterexample_substring :
    containsSub (pyLower "AlphaMindsAcademy Hoboken".data)
        "alphamindsacademy".data = true
    ∧ ("alphamindsacademy", ScraperId.alphaminds) ∈ SCRAPER_REGISTRY
    ∧ selectScraper "AlphaMindsAcademy Hoboken" = ScraperId.generic
    ∧ ScraperId.generic ≠ ScraperId.alphaminds := by
  refine ⟨by decide, by decide, by decide, by decide⟩

/-- C4 (amended): the dispatcher lowercases the source name (it does
not strip it) and selects by exact lookup in the registry with the
Generic default, except that any name containing "soccershots" or
"hudsoncounty" dispatches to the SoccerShots adapter — so
"SoccerShots of Hudson County" reaches SoccerShots, while an exact
registered name reaches its adapter and an unstripped variant falls to
Generic. -/
theorem C4_dispatch_amended :
    (∀ name : String,
      containsSub (pyLower name.data) "soccershots".data = false →
      containsSub (pyLower name.data) "hudsoncounty".data = false →
      selectScraper name = registryGet (strOf (pyLower name.data)))
    ∧ (∀ name : String,
      containsSub (pyLower name.data) "soccershots".data = true →
      selectScraper name = ScraperId.soccershots)
    ∧ (∀ name : String,
      containsSub (pyLower name.data) "hudsoncounty".data = true →
      selectScraper name = ScraperId.soccershots)
    ∧ selectScraper "SoccerShots of Hudson County" = ScraperId.soccershots
    ∧ selectScraper "HudsonCounty Kids" = ScraperId.soccershots
    ∧ selectScraper "mygym" = ScraperId.mygym
    ∧ selectScraper " mygym " = ScraperId.generic := by
  refine ⟨?_, ?_, ?_, by decide, by decide, by decide, by decide⟩
  · intro name h1 h2
    unfold selectScraper
    dsimp only
    rw [if_neg (by simp [strOf, h1, h2])]
  · intro name h1
    unfold selectScraper
    dsimp only
    rw [if_pos (by simp [strOf, h1])]
  · intro name h1
    unfold selectScraper
    dsimp only
    rw [if_pos (by simp [strOf, h1])]

/-- Witness for C4 (amended) at a concrete non-SoccerShots name. -/
theorem C4_dispatch_amended_witness :
    selectScraper "AquaTots Bergen" = ScraperId.generic := by
  have h := C4_dispatch_amended.1 "AquaTots Bergen" (by decide) (by decide)
  rw [h]
  decide

/-- C6: every page of a batch is processed (the batch never shrinks on
failure), an adapter invocation that raises is caught and hands nothing
to the sink for that source, and a failed fetch (empty markup) yields
zero candidate records rather than an exception. -/
theorem C6_error_isolation :
    (∀ (pages : List PageConfig)
       (impl : ScraperId → Except String (List (List (String × String)))),
      (runBatch pages impl).length = pages.length)
    ∧ (∀ (cfg : PageConfig)
        (impl : ScraperId → Except String (List (List (String × String))))
        (e : String),
      impl (selectScraper cfg.website) = Except.error e →
      runScrapeJob cfg impl = none)
    ∧ (∀ (url : String) (schema : List String) (website : String)
        (sa : Option String) (d : String),
      scrape_alphaminds none url schema website sa d = []) := by
  refine ⟨?_, ?_, ?_⟩
  · intro pages impl
    unfold runBatch
    simp
  · intro cfg impl e he
    unfold runScrapeJob
    cases hs : cfg.schema with
    | none => rfl
    | some sch =>
      dsimp only
      rw [he]
      rfl
  · intro url schema website sa d
    rfl

/-- Witness for C6: a raising adapter hands nothing to the sink, and a
batch with a failing page still has one result slot per page. -/
theorem C6_error_isolation_witness :
    runScrapeJob { website := "mygym", url := "u", schema := some ["A"] }
      (fun _ => Except.error "boom") = none
    ∧ (runBatch [{ website := "a", url := "u", schema := some ["A"] },
                 { website := "b", url := "u", schema := none }]
        (fun _ => Except.error "boom")).length = 2 := by
  constructor
  · exact C6_error_isolation.2.1 _ _ "boom" rfl
  · exact C6_error_isolation.1 _ _

theorem dedupeStrAux_nodup :
    ∀ {l seen : List String}, l.Nodup →
      (∀ x ∈ l, seen.contains x = false) →
      dedupeStrAux l seen = l := by
  intro l
  induction l with
  | nil => intro seen _ _; rfl
  | cons a as ih =>
    intro seen hnd hns
    rw [dedupeStrAux]
    rw [hns a (by simp)]
    simp only [Bool.false_eq_true, if_false]
    congr 1
    apply ih (List.nodup_cons.mp hnd).2
    intro x hx
    have hxa : x ≠ a := by
      intro he
      subst he
      exact (List.nodup_cons.mp hnd).1 hx
    have hsx : x ∉ seen := by simpa using hns x (by simp [hx])
    simp [List.contains_cons, hsx, hxa]

theorem rowGet_map_self :
    ∀ (schema : List String) (f : String → String) (k : String), k ∈ schema →
      rowGet (schema.map (fun x => (x, f x))) k = f k := by
  intro schema f k
  induction schema with
  | nil => intro h; simp at h
  | cons a as ih =>
    intro hk
    by_cases hak : a = k
    · subst hak
      unfold rowGet
      simp [List.find?_cons]
    · have hk2 : k ∈ as := by
        rcases List.mem_cons.mp hk with he | h2
        · exact absurd he.symm hak
        · exact h2
      unfold rowGet
      rw [List.map_cons, List.find?_cons]
      rw [show (((a, f a)).1 == k) = false by simpa using hak]
      exact ih hk2

/-- C7: the schema projection applied by every adapter produces records
whose keys are exactly the caller-supplied schema, in order (for a
duplicate-free schema), whose values default to the sentinel for
unresolved fields through the row lookup, and the sink row matrix lays
the values out in header order. -/
theorem C7_schema_projection :
    (∀ (schema : List String) (get : String → String), schema.Nodup →
      (projectToSchema schema get).map Prod.fst = schema
      ∧ (projectToSchema schema get).map Prod.snd = schema.map get
      ∧ ∀ k ∈ schema, rowGet (projectToSchema schema get) k = get k)
    ∧ (∀ (rows : List (List (String × String))) (header : List String),
      appendRowsValues rows header
        = rows.map (fun r => header.map (fun h => rowGet r h))) := by
  refine ⟨?_, fun rows header => rfl⟩
  intro schema get hnd
  have hd : dedupeStrAux schema [] = schema :=
    dedupeStrAux_nodup hnd (fun x _ => rfl)
  unfold projectToSchema
  rw [hd]
  refine ⟨by simp [Function.comp_def], by simp [Function.comp_def], ?_⟩
  intro k hk
  exact rowGet_map_self schema get k hk

/-- Witness for C7 at a concrete schema with an unresolved field. -/
theorem C7_schema_projection_witness :
    (projectToSchema ["A", "B"] (fun k => rowGet [("A", "1")] k)).map Prod.fst
      = ["A", "B"]
    ∧ rowGet (projectToSchema ["A", "B"] (fun k => rowGet [("A", "1")] k)) "B"
      = "N/A" := by
  have h := C7_schema_projection.1 ["A", "B"] (fun k => rowGet [("A", "1")] k)
    (by decide)
  refine ⟨h.1, ?_⟩
  rw [h.2.2 "B" (by decide)]
  decide

/-- The two-heading page of the end-to-end claim. -/
def c5page : List Elem :=
  [{ tag := "h2", text := "Testimonials" },
   { tag := "h2", text := "Tiny Tots — Ages 2-3, Tue/Thu, 10:00-10:45 AM" }]

/-- The schema used for the end-to-end claim. -/
def c5schema : List String :=
  ["ClassTitle", "AgeRange", "ClassSize", "ClassLength", "DayOfWeek",
   "Times", "ClassDescription"]

/-- The adapter output on the end-to-end claim's page. -/
def c5out : List (List (String × String)) :=
  scrape_alphaminds (some c5page) "https://alphamindsacademy.com/classes"
    c5schema "AlphaMinds Academy" none "01/01/2026"

/-- C5 (counterexample): on the claim's page the single emitted record
carries AgeRange "Ages 2-3" (the whole matcher span, not "2-3"),
DayOfWeek "Tue, Thu" (abbreviations are capitalized, not expanded to
full weekday names), and ClassLength "N/A" (the duration gate rejects
the range "10:00-10:45 AM" because its meridiem follows the range),
contradicting the claimed field values. -/
theorem C5_counterexample_fields :
    c5out.length = 1
    ∧ rowGet (c5out.headD []) "AgeRange" ≠ "2-3"
    ∧ rowGet (c5out.headD []) "DayOfWeek" ≠ "Tuesday, Thursday"
    ∧ rowGet (c5out.headD []) "ClassLength" ≠ "45m" := by
  decide

/-- C5 (amended): the heading-scan adapter emits exactly one record for
the page — the denylisted Testimonials heading is skipped — with
AgeRange "Ages 2-3", DayOfWeek "Tue, Thu", Times "10:00-10:45 AM" and
ClassLength "N/A". -/
theorem C5_single_record_amended :
    c5out =
      [[("ClassTitle", "Tiny Tots — Ages 2-3, Tue/Thu, 10:00-10:45 AM"),
        ("AgeRange", "Ages 2-3"), ("ClassSize", "N/A"),
        ("ClassLength", "N/A"), ("DayOfWeek", "Tue, Thu"),
        ("Times", "10:00-10:45 AM"), ("ClassDescription", "N/A")]] := by
  decide

/-- The schema used for the labeled-age claim. -/
def c8schema : List String := ["ClassTitle", "AgeRange", "DayOfWeek"]

/-- Adapter output for a block whose labeled age value is a bare
numeric range, with an unrelated bare number later in the text. -/
def c8outBare : List (List (String × String)) :=
  scrape_alphaminds (some
    [{ tag := "h2", text := "Chess Club" },
     { tag := "p", text := "Age Group: 3-5 Days: Monday Our room 12" }])
    "https://x" c8schema "AlphaMinds Academy" none "01/01/2026"

/-- Adapter output for a block whose labeled age value matches the age
pattern library, with an unlabeled age mention earlier and an unrelated
bare number later. -/
def c8outGrade : List (List (String × String)) :=
  scrape_alphaminds (some
    [{ tag := "h2", text := "Chess Club" },
     { tag := "p",
       text := "Ages 7-9 fun for all. Age Group: Grade 3 - 5 Days: Monday Our class meets in room 12" }])
    "https://x" c8schema "AlphaMinds Academy" none "01/01/2026"

/-- C8 (counterexample): a block text with the explicit label
"Age Group: 3-5" and an unrelated bare number elsewhere resolves the
age field to the sentinel — not to the labeled value "3-5" — because
the age pattern library cannot match a bare numeric range inside the
captured span. -/
theorem C8_counterexample_labeled :
    c8outBare.length = 1
    ∧ rowGet (c8outBare.headD []) "AgeRange" = "N/A"
    ∧ rowGet (c8outBare.headD []) "AgeRange" ≠ "3-5" := by
  decide

/-- C8 (amended): when the age pattern library matches inside the
captured labeled span, that span's value wins — "Age Group: Grade 3 - 5"
resolves to "Grade 3 - 5" even though the unlabeled mention "Ages 7-9"
occurs earlier in the same text; a labeled value the library cannot
match (bare "3-5") leaves the field unknown, and an unrelated bare
number is never taken as the age. -/
theorem C8_labeled_precedence_amended :
    rowGet (c8outGrade.headD []) "AgeRange" = "Grade 3 - 5"
    ∧ rowGet (c8outBare.headD []) "AgeRange" = "N/A" := by
  decide

theorem alphaEmit_false_iff (row : List (String × String)) :
    alphaEmit row = false ↔
      (rowGet row "AgeRange" = "N/A" ∧ rowGet row "ClassLength" = "N/A"
       ∧ rowGet row "DayOfWeek" = "N/A"
       ∧ (rowGet row "ClassTitle" = "Classes Offered"
          ∨ rowGet row "ClassTitle" = "All Age Groups")) := by
  unfold alphaEmit
  simp
  tauto

/-- C9: a record built by the heading-scan adapter (whose heading
passes the keyword skip) is suppressed exactly when all three
informative fields — age, class length, day of week — equal the
sentinel and the title is one of the two placeholder headings; every
record with an informative field resolved or another title is
emitted. -/
theorem C9_suppression_rule :
    ∀ (url website scrapeDate : String) (sa : Option String)
      (schema : List String) (heading : Elem) (after : List Elem),
      alphaSkip heading = false →
      (alphamindsProcessHeading url website scrapeDate sa schema heading after
          = none
        ↔ (rowGet (alphamindsRow url website scrapeDate sa heading after)
              "AgeRange" = "N/A"
           ∧ rowGet (alphamindsRow url website scrapeDate sa heading after)
              "ClassLength" = "N/A"
           ∧ rowGet (alphamindsRow url website scrapeDate sa heading after)
              "DayOfWeek" = "N/A"
           ∧ (rowGet (alphamindsRow url website scrapeDate sa heading after)
                "ClassTitle" = "Classes Offered"
              ∨ rowGet (alphamindsRow url website scrapeDate sa heading after)
                "ClassTitle" = "All Age Groups"))) := by
  intro url website scrapeDate sa schema heading after hskip
  unfold alphamindsProcessHeading
  rw [hskip]
  simp only [Bool.false_eq_true, if_false]
  rw [← alphaEmit_false_iff]
  by_cases he : alphaEmit (alphamindsRow url website scrapeDate sa heading after) = true
  · rw [if_pos he]
    constructor
    · intro h
      exact absurd h (by simp)
    · intro hR
      rw [hR] at he
      exact absurd he (by simp)
  · have he2 : alphaEmit (alphamindsRow url website scrapeDate sa heading after) = false := by
      simpa using he
    rw [if_neg he]
    simp [he2]

/-- Witness for C9: a placeholder heading with no informative siblings
is suppressed. -/
theorem C9_suppression_rule_witness :
    alphamindsProcessHeading "u" "w" "01/01/2026" none ["ClassTitle"]
      { tag := "h2", text := "All Age Groups" } [] = none := by
  have h := C9_suppression_rule "u" "w" "01/01/2026" none ["ClassTitle"]
    { tag := "h2", text := "All Age Groups" } [] (by decide)
  exact h.mpr (by decide)

end WebScrape
